import Mathlib

/-!
Verification of the fitgirl-downloader repository.

The development shallowly embeds the two TypeScript modules of the
repository:

* the streaming downloader (`downloadFileWithProgress`,
  `extractFilenameFromContentDisposition`) from `src/download.ts`, and
* the link-discovery / CLI module (`getDownloadLinks`, `downloadGame`)
  from `src/index.ts`.

Pure helpers become Lean functions over `List Char` / `String`; the
platform built-ins the code uses (JS regular expressions,
`decodeURIComponent`, WHATWG `URL`, Node `path.basename` / `path.join`,
`fs`) are modelled explicitly and the model of each is documented at its
definition.  Stateful code is embedded as explicit state passing: the
filesystem is an association list from paths to byte lists, the HTTP
response body is a list of timestamped chunks, and the observable
behaviour of a download call (fetch, body destruction, progress
callbacks, rename) is recorded as an event trace.
-/

set_option maxRecDepth 4096

namespace FG

/-! ### Characters and small string utilities -/

/-- Apostrophe character (U+0027), written via its code point. -/
def apos : Char := Char.ofNat 39

/-- Model of the JS regex whitespace class `\s` restricted to the
characters that can realistically occur in an HTTP header value
(space, tab, LF, VT, FF, CR, NBSP). -/
def jsWs (c : Char) : Bool :=
  c = ' ' || c = '\t' || c = '\n' || c = Char.ofNat 11 || c = Char.ofNat 12 ||
    c = '\r' || c = Char.ofNat 160

/-- Case-insensitive (ASCII) test that `s` begins with the already
lowercased literal `lit`; used for the `/i` flag of the two header
regexes. -/
def ciLitMatches : List Char → List Char → Bool
  | [], _ => true
  | _ :: _, [] => false
  | l :: ls, c :: cs => (c.toLower = l) && ciLitMatches ls cs

/-- `String.prototype.startsWith` / plain prefix test on strings. -/
def strStartsWith (s p : String) : Bool := p.data.isPrefixOf s.data

/-- Model of `String.prototype.trim` (whitespace stripped from both
ends). -/
def trimText (s : String) : String :=
  String.mk (((s.data.dropWhile jsWs).reverse.dropWhile jsWs).reverse)

/-! ### The regex `/filename\*=UTF-8''([^;,\s]+)/i` (download.ts line 21) -/

/-- The literal part of the extended-parameter regex, lowercased. -/
def fnStarLit : List Char := "filename*=utf-8''".data

/-- Character class `[^;,\s]` of the extended-parameter capture. -/
def cap1Char (c : Char) : Bool := !(c = ';' || c = ',' || jsWs c)

/-- Model of `contentDisposition.match(/filename\*=UTF-8''([^;,\s]+)/i)`:
the regex engine tries every start position in order; a position matches
when the (case-insensitive) literal occurs there followed by at least one
`[^;,\s]` character, and the capture is the greedy run of such
characters. -/
def scanFnStar : List Char → Option (List Char)
  | [] => none
  | c :: rest =>
    if ciLitMatches fnStarLit (c :: rest) then
      let cap := ((c :: rest).drop fnStarLit.length).takeWhile cap1Char
      if cap.isEmpty then scanFnStar rest else some cap
    else scanFnStar rest

/-! ### The regex `/filename[^;=\n]*=((['"]).*?\2|[^;\n]*)/i` (download.ts line 27) -/

/-- Lowercased literal head of the standard-parameter regex. -/
def fnLit : List Char := "filename".data

/-- Character class `[^;=\n]` between `filename` and `=`. -/
def gapChar (c : Char) : Bool := !(c = ';' || c = '=' || c = '\n')

/-- Character class `[^;\n]` of the bare-token branch. -/
def bareChar (c : Char) : Bool := !(c = ';' || c = '\n')

/-- The lazy quoted branch `(['"]).*?\2` after the opening quote `q`:
the shortest run of `.`-matchable characters (no LF/CR) up to the same
quote; `some inner` when a closing quote exists. -/
def lazyQuoted (q : Char) : List Char → Option (List Char)
  | [] => none
  | c :: rest =>
    if c = q then some []
    else if c = '\n' || c = '\r' then none
    else (lazyQuoted q rest).map (c :: ·)

/-- Capture of group 1 after the `=`: the quoted branch (quotes included
in the capture) when it matches, else the greedy bare token `[^;\n]*`
(possibly empty). -/
def fnCapture (after : List Char) : List Char :=
  match after with
  | [] => []
  | c :: rest =>
    if c = '"' || c = apos then
      match lazyQuoted c rest with
      | some inner => c :: inner ++ [c]
      | none => (c :: rest).takeWhile bareChar
    else (c :: rest).takeWhile bareChar

/-- One attempt of `[^;=\n]*=(...)` at the text following `filename`:
the greedy gap run must be terminated by `=` (the class excludes `=`, so
the engine cannot backtrack into it). -/
def fnTryAt (t : List Char) : Option (List Char) :=
  match t.dropWhile gapChar with
  | '=' :: after => some (fnCapture after)
  | _ => none

/-- Model of `contentDisposition.match(/filename[^;=\n]*=(...)/i)`:
try every start position in order, succeed at the first one where
`filename` (case-insensitive) is followed by a gap run and `=`. -/
def scanFn : List Char → Option (List Char)
  | [] => none
  | c :: rest =>
    if ciLitMatches fnLit (c :: rest) then
      match fnTryAt ((c :: rest).drop fnLit.length) with
      | some cap => some cap
      | none => scanFn rest
    else scanFn rest

/-! ### decodeURIComponent (platform built-in used at download.ts line 23) -/

/-- Hexadecimal digit value, or `none`. -/
def hexDigit (c : Char) : Option Nat :=
  if '0' ≤ c ∧ c ≤ '9' then some (c.toNat - 48)
  else if 'A' ≤ c ∧ c ≤ 'F' then some (c.toNat - 55)
  else if 'a' ≤ c ∧ c ≤ 'f' then some (c.toNat - 87)
  else none

/-- First pass of `decodeURIComponent`: each `%hh` escape becomes a byte
(`Sum.inl`), any other character passes through (`Sum.inr`); a `%` not
followed by two hex digits is a URIError (`none`). -/
def pctUnits : List Char → Option (List (Nat ⊕ Char))
  | [] => some []
  | '%' :: h1 :: h2 :: rest => do
    let a ← hexDigit h1
    let b ← hexDigit h2
    let u ← pctUnits rest
    pure (Sum.inl (a * 16 + b) :: u)
  | '%' :: _ => none
  | c :: rest => (pctUnits rest).map (Sum.inr c :: ·)

/-- UTF-8 continuation byte test. -/
def contByte (b : Nat) : Bool := 128 ≤ b && b ≤ 191

/-- Second pass of `decodeURIComponent`: escape bytes must form valid
(shortest-form, non-surrogate) UTF-8 sequences; any violation is a
URIError (`none`). -/
def utf8Units : List (Nat ⊕ Char) → Option (List Char)
  | [] => some []
  | Sum.inr c :: rest => (utf8Units rest).map (c :: ·)
  | Sum.inl b :: rest =>
    if b ≤ 127 then (utf8Units rest).map (Char.ofNat b :: ·)
    else if 194 ≤ b && b ≤ 223 then
      match rest with
      | Sum.inl b2 :: rest2 =>
        if contByte b2 then
          (utf8Units rest2).map (Char.ofNat ((b - 192) * 64 + (b2 - 128)) :: ·)
        else none
      | _ => none
    else if 224 ≤ b && b ≤ 239 then
      match rest with
      | Sum.inl b2 :: Sum.inl b3 :: rest2 =>
        if (if b = 224 then 160 ≤ b2 && b2 ≤ 191
            else if b = 237 then 128 ≤ b2 && b2 ≤ 159
            else contByte b2) && contByte b3 then
          (utf8Units rest2).map
            (Char.ofNat ((b - 224) * 4096 + (b2 - 128) * 64 + (b3 - 128)) :: ·)
        else none
      | _ => none
    else if 240 ≤ b && b ≤ 244 then
      match rest with
      | Sum.inl b2 :: Sum.inl b3 :: Sum.inl b4 :: rest2 =>
        if (if b = 240 then 144 ≤ b2 && b2 ≤ 191
            else if b = 244 then 128 ≤ b2 && b2 ≤ 143
            else contByte b2) && contByte b3 && contByte b4 then
          (utf8Units rest2).map
            (Char.ofNat ((b - 240) * 262144 + (b2 - 128) * 4096 +
              (b3 - 128) * 64 + (b4 - 128)) :: ·)
        else none
      | _ => none
    else none

/-- Model of the JS built-in `decodeURIComponent`: percent-decode, then
UTF-8-decode the escape bytes; `none` models a thrown `URIError`. -/
def decodeURIComponent (s : List Char) : Option (List Char) := do
  utf8Units (← pctUnits s)

/-! ### extractFilenameFromContentDisposition (download.ts lines 17-33) -/

/-- Removes every `'` and `"` character:
`filenameMatch[1].replace(/['"]/g, "")` (download.ts line 29). -/
def stripQuoteChars (l : List Char) : List Char :=
  l.filter (fun c => !(c = '"' || c = apos))

/-- Error kinds that can escape the downloader: a `URIError` thrown by
`decodeURIComponent`, a `TypeError` thrown by `new URL(url)`, and a
stream error during the body transfer. -/
inductive DlErr where
  | uriError
  | urlError
  | streamError
deriving DecidableEq

/-- Embedding of `extractFilenameFromContentDisposition` (download.ts
lines 17-33).  `.ok none` is the function returning `null`; `.ok (some f)`
a returned filename; `.error .uriError` models the uncaught `URIError`
thrown by `decodeURIComponent` on a malformed escape.  Note that the
truthiness test `if (filenameMatch?.[1])` inspects the capture *before*
quote stripping, and that the replace removes every quote/apostrophe,
not only the surrounding ones. -/
def extractFilenameFromContentDisposition (contentDisposition : String) :
    Except DlErr (Option String) :=
  if contentDisposition = "" then .ok none
  else
    match scanFnStar contentDisposition.data with
    | some cap =>
      match decodeURIComponent cap with
      | some cs => .ok (some (String.mk cs))
      | none => .error .uriError
    | none =>
      match scanFn contentDisposition.data with
      | some cap =>
        if cap.isEmpty then .ok none
        else .ok (some (String.mk (stripQuoteChars cap)))
      | none => .ok none

/-! ### WHATWG URL and Node path models (platform built-ins) -/

/-- Host character test: the authority extends to the first `/`, `?` or
`#`. -/
def hostChar (c : Char) : Bool := !(c = '/' || c = '?' || c = '#')

/-- Model of WHATWG URL parsing restricted to the shapes the repository
feeds it: a lowercase `http://` or `https://` scheme followed by a
non-empty host.  Returns `(scheme, host, path-query-fragment)`; `none`
models the `TypeError` thrown by `new URL` on anything else. -/
def urlSplit (u : String) : Option (String × String × String) :=
  if "https://".data.isPrefixOf u.data then
    let rest := u.data.drop 8
    let host := rest.takeWhile hostChar
    if host.isEmpty then none
    else some ("https", String.mk host, String.mk (rest.drop host.length))
  else if "http://".data.isPrefixOf u.data then
    let rest := u.data.drop 7
    let host := rest.takeWhile hostChar
    if host.isEmpty then none
    else some ("http", String.mk host, String.mk (rest.drop host.length))
  else none

/-- `new URL(u).pathname`: the path component (up to `?` or `#`),
`"/"` when empty; `none` models the constructor throwing. -/
def urlPathname (u : String) : Option String :=
  (urlSplit u).map fun x =>
    let p := x.2.2.data.takeWhile (fun c => !(c = '?' || c = '#'))
    if p.isEmpty then "/" else String.mk p

/-- Directory part (through the last `/`) of a path-query-fragment
string, for relative URL resolution; `"/"` when there is no slash. -/
def dirPartOf (rest : String) : String :=
  let p := rest.data.takeWhile (fun c => !(c = '?' || c = '#'))
  let d := (p.reverse.dropWhile (fun c => !(c = '/'))).reverse
  if d.isEmpty then "/" else String.mk d

/-- Model of `new URL(raw, base).toString()` for http(s) URLs: an
absolute `raw` is kept (a missing path serialises as `/`); otherwise
`raw` is resolved against `base` (protocol-relative, root-relative or
path-relative).  Dot-segment and percent-encoding normalisation of the
serialiser are not modelled; no claim exercises them. -/
def resolveUrl (base raw : String) : String :=
  match urlSplit raw with
  | some x => x.1 ++ "://" ++ x.2.1 ++ (if x.2.2 = "" then "/" else x.2.2)
  | none =>
    match urlSplit base with
    | some x =>
      if raw = "" then x.1 ++ "://" ++ x.2.1 ++ (if x.2.2 = "" then "/" else x.2.2)
      else if strStartsWith raw "//" then x.1 ++ ":" ++ raw
      else if strStartsWith raw "/" then x.1 ++ "://" ++ x.2.1 ++ raw
      else x.1 ++ "://" ++ x.2.1 ++ dirPartOf x.2.2 ++ raw
    | none => raw

/-- Absolute http(s) URL test (the shape `new URL(...).toString()`
produces for the pages in scope). -/
def isAbsoluteHttpUrl (u : String) : Bool :=
  strStartsWith u "http://" || strStartsWith u "https://"

/-- Model of Node `path.basename` (posix): trailing slashes are ignored
and the segment after the last remaining `/` is returned. -/
def pathBasename (p : String) : String :=
  let r := p.data.reverse.dropWhile (fun c => c = '/')
  String.mk ((r.takeWhile (fun c => !(c = '/'))).reverse)

/-- Splits a path on `/` into segments (separators dropped). -/
def splitSegs : List Char → List (List Char)
  | [] => [[]]
  | '/' :: rest => [] :: splitSegs rest
  | c :: rest =>
    match splitSegs rest with
    | [] => [[c]]
    | s :: ss => (c :: s) :: ss

/-- Segment normalisation of Node `path.normalize` (posix): empty and
`.` segments are dropped, `..` pops the previous segment, a leading
`..` is kept for relative paths and dropped at the root of absolute
ones.  `acc` holds the processed segments in reverse. -/
def normSegs (isAbs : Bool) : List (List Char) → List (List Char) → List (List Char)
  | acc, [] => acc.reverse
  | acc, s :: rest =>
    if s.isEmpty || s = ['.'] then normSegs isAbs acc rest
    else if s = ['.', '.'] then
      match acc with
      | t :: acc' =>
        if t = ['.', '.'] then normSegs isAbs (s :: acc) rest
        else normSegs isAbs acc' rest
      | [] => if isAbs then normSegs isAbs [] rest else normSegs isAbs [s] rest
    else normSegs isAbs (s :: acc) rest

/-- Joins segments back with `/`. -/
def segsJoin : List (List Char) → List Char
  | [] => []
  | [s] => s
  | s :: rest => s ++ '/' :: segsJoin rest

/-- Model of Node `path.normalize` (posix) on the join results in scope
(trailing-slash preservation is not modelled; no input in scope ends in
a slash). -/
def pathNormalize (l : List Char) : String :=
  let isAbs := l.head? = some '/'
  let core := segsJoin (normSegs isAbs [] (splitSegs l))
  if isAbs then String.mk ('/' :: core)
  else if core.isEmpty then "." else String.mk core

/-- Model of Node `path.join(a, b)` (posix): concatenate the non-empty
parts with `/` and normalize; `"."` for an empty result. -/
def pathJoin (a b : String) : String :=
  let joined : List Char :=
    if a = "" then b.data else if b = "" then a.data else a.data ++ '/' :: b.data
  if joined.isEmpty then "." else pathNormalize joined

/-! ### Filename resolution of the downloader (download.ts lines 50-55) -/

/-- The filename used by `downloadFileWithProgress`: the
`Content-Disposition` extraction when it yields a truthy string, else
`path.basename(new URL(url).pathname)`.  Errors are the uncaught
`URIError` / `TypeError` of those built-ins. -/
def resolvedFilename (contentDisposition : Option String) (url : String) :
    Except DlErr String :=
  match extractFilenameFromContentDisposition (contentDisposition.getD "") with
  | .error e => .error e
  | .ok ext =>
    let fromUrl : Except DlErr String :=
      match urlPathname url with
      | some pn => .ok (pathBasename pn)
      | none => .error .urlError
    match ext with
    | some f => if f = "" then fromUrl else .ok f
    | none => fromUrl

/-! ### Filesystem model -/

/-- The filesystem is an association list from absolute paths to file
contents (byte lists); directories are implicit (`mkdirSync` has no
observable effect on this model). -/
abbrev FS := List (String × List Nat)

/-- Content of the file at `p`, if any (`fs.readFileSync` view). -/
def fsGet : FS → String → Option (List Nat)
  | [], _ => none
  | e :: rest, p => if e.1 = p then some e.2 else fsGet rest p

/-- `fs.existsSync`. -/
def fsExists (fs : FS) (p : String) : Bool := (fsGet fs p).isSome

/-- `fs.unlinkSync` (no-op when absent, matching the guarded use). -/
def fsDel : FS → String → FS
  | [], _ => []
  | e :: rest, p => if e.1 = p then fsDel rest p else e :: fsDel rest p

/-- Create/overwrite the file at `p` with content `v`. -/
def fsSet (fs : FS) (p : String) (v : List Nat) : FS := (p, v) :: fsDel fs p

/-! ### Streaming transfer model (download.ts lines 75-124) -/

/-- One `data` event of the response stream: the wall-clock time
(`Date.now()`, ms) at which it fires and the chunk bytes. -/
structure Chunk where
  time : Nat
  data : List Nat
deriving DecidableEq

/-- The `DownloadProgress` payload (download.ts lines 6-11).  JS numbers
arising from division are modelled exactly as rationals. -/
structure DownloadProgress where
  downloadedBytes : Nat
  totalBytes : Option Nat
  percent : Option ℚ
  rateBps : Option ℚ
deriving DecidableEq

/-- Observable events of one `downloadFileWithProgress` call: the
`axios.get` network fetch, `res.data.destroy()`, an `onProgress`
callback, and the `renameSync` publish step. -/
inductive Event where
  | fetch (url : String)
  | destroyBody
  | progress (p : DownloadProgress)
  | rename (src dst : String)
deriving DecidableEq

/-- Model of `Number(header)` for `Content-Length` values: the empty
string is 0, a pure decimal digit string its value, anything else NaN
(`none`; NaN and `undefined` coincide in every use below because both
are falsy). -/
def parseContentLength (s : String) : Option Nat :=
  if s = "" then some 0
  else if s.data.all (fun c => c.isDigit) then
    some (s.data.foldl (fun a c => a * 10 + (c.toNat - 48)) 0)
  else none

/-- JS truthiness of the `totalBytes` number (`0`, `NaN` and
`undefined` are falsy). -/
def tbTruthy : Option Nat → Bool
  | some n => !(n = 0)
  | none => false

/-- Mutable locals of the `data` handler (download.ts lines 79-83). -/
structure StState where
  downloadedBytes : Nat
  lastEmit : Nat
  lastBytes : Nat
deriving DecidableEq

/-- One `data` event (download.ts lines 85-108): accumulate the chunk,
and when at least 250 ms have passed since `lastEmit` compute the
instantaneous rate and percentage and emit a progress sample.
`(now - lastEmit)/1000 >= 0.25` on integer millisecond clocks is
exactly `lastEmit + 250 ≤ now`. -/
def stepChunk (totalBytes : Option Nat) (st : StState) (c : Chunk) :
    StState × Option (Nat × DownloadProgress) :=
  let d := st.downloadedBytes + c.data.length
  if st.lastEmit + 250 ≤ c.time then
    let rate : ℚ := ((d : ℚ) - (st.lastBytes : ℚ)) * 1000 /
      ((c.time : ℚ) - (st.lastEmit : ℚ))
    let percent : Option ℚ :=
      if tbTruthy totalBytes then some ((d : ℚ) / ((totalBytes.getD 0 : Nat) : ℚ) * 100)
      else none
    (⟨d, c.time, d⟩, some (c.time, ⟨d, totalBytes, percent, some rate⟩))
  else (⟨d, st.lastEmit, st.lastBytes⟩, none)

/-- The throttled mid-transfer progress samples produced from state
`st` over the remaining chunks, each tagged with its emission time. -/
def streamEmitsAux (totalBytes : Option Nat) (st : StState) :
    List Chunk → List (Nat × DownloadProgress)
  | [] => []
  | c :: rest =>
    match stepChunk totalBytes st c with
    | (st', some e) => e :: streamEmitsAux totalBytes st' rest
    | (st', none) => streamEmitsAux totalBytes st' rest

/-- All mid-transfer progress samples of a stream whose `lastEmit`
clock starts at `startTime` (download.ts line 82). -/
def streamEmits (totalBytes : Option Nat) (startTime : Nat) (chunks : List Chunk) :
    List (Nat × DownloadProgress) :=
  streamEmitsAux totalBytes ⟨0, startTime, 0⟩ chunks

/-- Concatenated bytes of the delivered chunks (the content the
`pipeline` writes to the temp file). -/
def bytesOf (chunks : List Chunk) : List Nat :=
  chunks.foldr (fun c acc => c.data ++ acc) []

/-- Wall-clock sanity of a chunk sequence: every chunk fires no earlier
than `t` and chunk times are non-decreasing (`Date.now()` is
monotone). -/
def timesMono : Nat → List Chunk → Bool
  | _, [] => true
  | t, c :: cs => decide (t ≤ c.time) && timesMono c.time cs

/-- Well-formedness of the throttled progress samples, chained from the
previous emission time `tPrev` and previous emitted byte count `bPrev`
(initially the stream start time and 0): each sample fires at least
250 ms after the previous emission, its `downloadedBytes` is
non-decreasing, and its `rateBps` is exactly the bytes received since
the previous emission divided by the seconds elapsed since it. -/
def emissionsOk (tPrev bPrev : Nat) : List (Nat × DownloadProgress) → Bool
  | [] => true
  | (t, p) :: rest =>
    decide (tPrev + 250 ≤ t) && decide (bPrev ≤ p.downloadedBytes) &&
      decide (p.rateBps
        = some (((p.downloadedBytes : ℚ) - (bPrev : ℚ)) * 1000 /
          ((t : ℚ) - (tPrev : ℚ)))) &&
      emissionsOk t p.downloadedBytes rest

/-- The HTTP response handed to the downloader: the two headers it
reads, the body chunks delivered, and whether the stream completes
(`streamOk = false` means it errors after the listed chunks). -/
structure Response where
  contentDisposition : Option String
  contentLength : Option String
  chunks : List Chunk
  streamOk : Bool

/-- Result of one `downloadFileWithProgress` call: the returned path or
propagated error, the filesystem afterwards, and the event trace. -/
structure DlResult where
  outcome : Except DlErr String
  fs : FS
  trace : List Event

/-- Embedding of `downloadFileWithProgress` (download.ts lines 35-125):
fetch; resolve the filename from the `Content-Disposition` header with
URL fallback; skip (destroying the body) when the output file exists;
otherwise delete a stale temp file, stream the body into
`outputPath + ".download"` emitting throttled progress, and on stream
completion rename the temp file to `outputPath` and emit one final
progress callback; on a stream error the partial temp file is left in
place and nothing is renamed. -/
def downloadFileWithProgress (url outputDir : String) (res : Response)
    (fs : FS) (startTime : Nat) : DlResult :=
  match resolvedFilename res.contentDisposition url with
  | .error e => ⟨.error e, fs, [Event.fetch url]⟩
  | .ok filename =>
    let outputPath := pathJoin outputDir filename
    if fsExists fs outputPath then
      ⟨.ok outputPath, fs, [Event.fetch url, Event.destroyBody]⟩
    else
      let tempPath := outputPath ++ ".download"
      let fs1 := fsDel fs tempPath
      let totalBytes := res.contentLength.bind parseContentLength
      let emits := streamEmits totalBytes startTime res.chunks
      let body := bytesOf res.chunks
      let midTrace := Event.fetch url :: emits.map (fun e => Event.progress e.2)
      if res.streamOk then
        let fs2 := fsSet (fsDel (fsSet fs1 tempPath body) tempPath) outputPath body
        let pF : DownloadProgress :=
          ⟨body.length, totalBytes,
            if tbTruthy totalBytes then some 100 else none, none⟩
        ⟨.ok outputPath, fs2,
          midTrace ++ [Event.rename tempPath outputPath, Event.progress pF]⟩
      else
        ⟨.error .streamError, fsSet fs1 tempPath body, midTrace⟩

/-- Number of network fetches recorded in a trace. -/
def countFetch (tr : List Event) : Nat :=
  tr.countP (fun e => match e with | Event.fetch _ => true | _ => false)

/-! ### Link discovery (index.ts lines 81-111) -/

/-- An `<a>` element as `htmlparser2`/`domutils` present it: the `href`
attribute (absent or its raw string value) and the anchor's text
content. -/
structure AnchorEl where
  href : Option String
  text : String
deriving DecidableEq

/-- The `LinkItem` record (index.ts lines 24-27). -/
structure LinkItem where
  href : String
  text : String
deriving DecidableEq

/-- The anchor filter (index.ts line 97): `attribs.href` must be truthy
(present and non-empty) and start with `hrefPrefix`. -/
def anchorKeep (hrefPrefix : String) (a : AnchorEl) : Bool :=
  match a.href with
  | some h => !(h = "") && strStartsWith h hrefPrefix
  | none => false

/-- The map step (index.ts lines 98-104): resolve the raw href against
the page URL and trim the text (the `if (!rawHref) return null` guard
re-checks truthiness). -/
def toLinkItem (url : String) (a : AnchorEl) : Option LinkItem :=
  match a.href with
  | some h => if h = "" then none else some ⟨resolveUrl url h, trimText a.text⟩
  | none => none

/-- The `Map`-based deduplication (index.ts lines 107-110): keep an
item when its href was not seen before; a JS `Map` iterates its values
in insertion order, so this keeps the first occurrence in order. -/
def dedupByHref (seen : List String) : List LinkItem → List LinkItem
  | [] => []
  | it :: rest =>
    if it.href ∈ seen then dedupByHref seen rest
    else it :: dedupByHref (it.href :: seen) rest

/-- Embedding of `getDownloadLinks` (index.ts lines 81-111) applied to
the anchors of the fetched page (in document order). -/
def getDownloadLinks (url hrefPrefix : String) (anchors : List AnchorEl) :
    List LinkItem :=
  dedupByHref [] ((anchors.filter (anchorKeep hrefPrefix)).filterMap (toLinkItem url))

/-- The discovery operation as the specification words it: anchors
whose href attribute is present and starts with the prefix, resolved
against the page URL, text trimmed, deduplicated by resolved href with
the first occurrence winning in insertion order. -/
def discoverSpec (url hrefPrefix : String) (anchors : List AnchorEl) :
    List LinkItem :=
  dedupByHref []
    (((anchors.filterMap (fun a => a.href.map (fun h => (h, a.text)))).filter
        (fun hw => strStartsWith hw.1 hrefPrefix)).map
      (fun hw => ⟨resolveUrl url hw.1, trimText hw.2⟩))

/-- The discovery specification amended to require a non-empty raw
href, matching the JS truthiness test the code performs. -/
def discoverSpecNonempty (url hrefPrefix : String) (anchors : List AnchorEl) :
    List LinkItem :=
  dedupByHref []
    (((anchors.filterMap (fun a => a.href.map (fun h => (h, a.text)))).filter
        (fun hw => !(hw.1 = "") && strStartsWith hw.1 hrefPrefix)).map
      (fun hw => ⟨resolveUrl url hw.1, trimText hw.2⟩))

/-! ### CLI download loop (index.ts lines 175-321) -/

/-- Oracle for one selected link in the `downloadGame` loop:
`nested = none` models `getNestedDownloadLink` throwing (fetch error),
`some none` its returning `null` (no match), `some (some u)` a resolved
nested URL; `dl` tells whether the subsequent download succeeds. -/
structure ItemRun where
  nested : Option (Option String)
  dl : Bool
deriving DecidableEq

/-- Whether the loop body counts this item as a failure. -/
def itemFails (it : ItemRun) : Bool :=
  match it.nested with
  | some (some _) => !it.dl
  | _ => true

/-- One iteration of the loop (index.ts lines 258-296): a nested-link
fetch error or `null` increments `failCount` and continues; a download
error increments `failCount`; a successful download increments
`successCount`. -/
def stepItem (c : Nat × Nat) (it : ItemRun) : Nat × Nat :=
  match it.nested with
  | none => (c.1, c.2 + 1)
  | some none => (c.1, c.2 + 1)
  | some (some _) => if it.dl then (c.1 + 1, c.2) else (c.1, c.2 + 1)

/-- The whole loop: `(successCount, failCount)` after processing every
selected item in order. -/
def runItems (items : List ItemRun) : Nat × Nat := items.foldl stepItem (0, 0)

/-- Embedding of the `downloadGame` control flow (index.ts lines
175-321) relevant to failure handling, as
`(exit status, items processed)`: a failure fetching the initial link
list is fatal (`process.exit(1)` before any item is processed); given
the initial fetch and selection succeeded, all selected items are
processed and the process exits 1 exactly when `failCount > 0`
(index.ts lines 318-320), else 0. -/
def downloadGame (initialFetch : Option (List ItemRun)) : Nat × Nat :=
  match initialFetch with
  | none => (1, 0)
  | some items =>
    let c := runItems items
    (if 0 < c.2 then 1 else 0, items.length)

/-! ### Helper lemmas -/

theorem fsGet_fsDel_ne (fs : FS) (p q : String) (h : ¬ q = p) :
    fsGet (fsDel fs p) q = fsGet fs q := by
  induction fs with
  | nil => rfl
  | cons e rest ih =>
    have hpq : ¬ p = q := fun hc => h hc.symm
    by_cases he : e.1 = p
    · have hq : ¬ e.1 = q := fun hc => h (hc ▸ he)
      simp [fsDel, fsGet, he, hq, hpq, ih]
    · simp [fsDel, fsGet, he, ih]

theorem fsGet_fsSet_self (fs : FS) (p : String) (v : List Nat) :
    fsGet (fsSet fs p v) p = some v := by
  simp [fsSet, fsGet]

theorem fsGet_fsSet_ne (fs : FS) (p q : String) (v : List Nat) (h : ¬ q = p) :
    fsGet (fsSet fs p v) q = fsGet fs q := by
  have hp : ¬ p = q := fun hc => h hc.symm
  simp [fsSet, fsGet, hp, fsGet_fsDel_ne fs p q h]

theorem append_download_ne (p : String) : ¬ (p ++ ".download" = p) := by
  intro h
  have hl := congrArg String.length h
  rw [String.length_append] at hl
  have h9 : (".download" : String).length = 9 := rfl
  omega

theorem countFetch_progress_map (l : List (Nat × DownloadProgress)) :
    countFetch (l.map (fun e => Event.progress e.2)) = 0 := by
  induction l with
  | nil => rfl
  | cons a t _ => simp [countFetch, List.countP_cons]

theorem rename_notMem_progress_map (l : List (Nat × DownloadProgress)) (a b : String) :
    Event.rename a b ∉ l.map (fun e => Event.progress e.2) := by
  intro h
  rcases List.mem_map.mp h with ⟨x, _, hx⟩
  exact Event.noConfusion hx

theorem strStartsWith_append (p s : String) : strStartsWith (p ++ s) p = true := by
  rw [strStartsWith, String.data_append, List.isPrefixOf_iff_prefix]
  exact List.prefix_append _ _

theorem isAbs_append_https (z : String) :
    isAbsoluteHttpUrl ("https://" ++ z) = true := by
  unfold isAbsoluteHttpUrl
  rw [strStartsWith_append]
  simp

theorem isAbs_append_http (z : String) :
    isAbsoluteHttpUrl ("http://" ++ z) = true := by
  unfold isAbsoluteHttpUrl
  rw [strStartsWith_append]
  simp

theorem isAbs_scheme (sch z : String) (h : sch = "https" ∨ sch = "http") :
    isAbsoluteHttpUrl (sch ++ "://" ++ z) = true := by
  rcases h with h | h <;> subst h
  · rw [show ("https" : String) ++ "://" ++ z = "https://" ++ z from by
      rw [show ("https" : String) ++ "://" = "https://" from by decide]]
    exact isAbs_append_https z
  · rw [show ("http" : String) ++ "://" ++ z = "http://" ++ z from by
      rw [show ("http" : String) ++ "://" = "http://" from by decide]]
    exact isAbs_append_http z

theorem urlSplit_scheme {u : String} {x : String × String × String}
    (h : urlSplit u = some x) : x.1 = "https" ∨ x.1 = "http" := by
  simp only [urlSplit] at h
  split at h
  · split at h
    · exact absurd h (by simp)
    · cases h; left; rfl
  · split at h
    · split at h
      · exact absurd h (by simp)
      · cases h; right; rfl
    · exact absurd h (by simp)

theorem resolveUrl_abs (base raw : String) (hb : (urlSplit base).isSome = true) :
    isAbsoluteHttpUrl (resolveUrl base raw) = true := by
  unfold resolveUrl
  cases hr : urlSplit raw with
  | some x =>
    dsimp only
    rw [String.append_assoc]
    exact isAbs_scheme _ _ (urlSplit_scheme hr)
  | none =>
    cases hbs : urlSplit base with
    | none => rw [hbs] at hb; exact absurd hb (by simp)
    | some x =>
      dsimp only
      have hsch := urlSplit_scheme hbs
      by_cases h0 : raw = ""
      · rw [if_pos h0, String.append_assoc]
        exact isAbs_scheme _ _ hsch
      · rw [if_neg h0]
        by_cases h1 : strStartsWith raw "//" = true
        · rw [if_pos h1]
          rcases (List.isPrefixOf_iff_prefix.mp h1 : _ <+: raw.data) with ⟨t, ht⟩
          have hraw : raw = "//" ++ String.mk t := by
            apply String.ext
            rw [String.data_append, ← ht]
          rw [hraw, ← String.append_assoc, String.append_assoc x.1 ":" "//",
            show (":" : String) ++ "//" = "://" from by decide]
          exact isAbs_scheme _ _ hsch
        · rw [if_neg h1]
          by_cases h2 : strStartsWith raw "/" = true
          · rw [if_pos h2, String.append_assoc]
            exact isAbs_scheme _ _ hsch
          · rw [if_neg h2, String.append_assoc, String.append_assoc]
            exact isAbs_scheme _ _ hsch

theorem mem_of_mem_dedup {it : LinkItem} :
    ∀ (seen : List String) (l : List LinkItem), it ∈ dedupByHref seen l → it ∈ l := by
  intro seen l
  induction l generalizing seen with
  | nil => intro h; exact absurd h (by simp [dedupByHref])
  | cons a t ih =>
    intro h
    by_cases hs : a.href ∈ seen
    · rw [dedupByHref, if_pos hs] at h
      exact List.mem_cons_of_mem _ (ih _ h)
    · rw [dedupByHref, if_neg hs] at h
      rcases List.mem_cons.mp h with h | h
      · exact h ▸ List.mem_cons_self _ _
      · exact List.mem_cons_of_mem _ (ih _ h)

/-- A download call whose resolved output file already exists returns
the existing path, leaves the filesystem unchanged, and only fetches
and destroys the body. -/
theorem download_skip (url dir : String) (res : Response) (fs : FS) (t1 : Nat)
    (f : String) (hres : resolvedFilename res.contentDisposition url = .ok f)
    (hex : fsExists fs (pathJoin dir f) = true) :
    downloadFileWithProgress url dir res fs t1
      = ⟨.ok (pathJoin dir f), fs, [Event.fetch url, Event.destroyBody]⟩ := by
  unfold downloadFileWithProgress
  rw [hres]
  dsimp only
  rw [if_pos hex]

/-- A download call that returns a path returned the joined output path
and left a file there. -/
theorem download_ok_exists (url dir : String) (res : Response) (fs : FS) (t0 : Nat)
    (f p : String) (hres : resolvedFilename res.contentDisposition url = .ok f)
    (h : (downloadFileWithProgress url dir res fs t0).outcome = .ok p) :
    p = pathJoin dir f
    ∧ fsExists (downloadFileWithProgress url dir res fs t0).fs (pathJoin dir f) = true := by
  unfold downloadFileWithProgress at h ⊢
  rw [hres] at h ⊢
  dsimp only at h ⊢
  by_cases hex : fsExists fs (pathJoin dir f) = true
  · rw [if_pos hex] at h ⊢
    exact ⟨(Except.ok.inj h).symm, hex⟩
  · rw [if_neg hex] at h ⊢
    by_cases hok : res.streamOk = true
    · rw [if_pos hok] at h ⊢
      refine ⟨(Except.ok.inj h).symm, ?_⟩
      simp [fsExists, fsGet_fsSet_self]
    · rw [if_neg hok] at h
      exact absurd h (by simp)

/-! ### Claim theorems -/

/-- C3: filename resolution tries the rules in order with the specified
results — the extended parameter `filename*=UTF-8''%D0%A4.rar` resolves
to the percent-decoded `Ф.rar`, `attachment; filename="game.zip"`
resolves to `game.zip`, and with no `Content-Disposition` header the
resolved filename is the last path segment of the resource URL. -/
theorem c3_filename_resolution :
    resolvedFilename (some "filename*=UTF-8''%D0%A4.rar") "https://x.example/f"
      = .ok "Ф.rar"
    ∧ resolvedFilename (some "attachment; filename=\"game.zip\"") "https://x.example/f"
      = .ok "game.zip"
    ∧ ∀ url pn, urlPathname url = some pn →
        resolvedFilename none url = .ok (pathBasename pn) := by
  refine ⟨by rfl, by rfl, ?_⟩
  intro url pn h
  simp [resolvedFilename, extractFilenameFromContentDisposition, Option.getD, h]

/-- Witness for C3: a concrete URL whose pathname the model parses, with
the resolved filename equal to its last path segment. -/
theorem c3_filename_resolution_witness :
    urlPathname "https://cdn.example/files/setup.part1.rar" = some "/files/setup.part1.rar"
    ∧ resolvedFilename none "https://cdn.example/files/setup.part1.rar"
      = .ok "setup.part1.rar" :=
  ⟨by rfl,
    c3_filename_resolution.2.2 "https://cdn.example/files/setup.part1.rar"
      "/files/setup.part1.rar" (by rfl)⟩

/-- C5 counterexample: the claim says filename resolution never throws,
but on the header `attachment; filename*=UTF-8''%ZZ.rar` the extended
parameter matches and `decodeURIComponent` throws a `URIError`, which
propagates. -/
theorem c5_counterexample :
    extractFilenameFromContentDisposition "attachment; filename*=UTF-8''%ZZ.rar"
      = .error .uriError := by rfl

/-- C5 amended: filename resolution does not throw provided every value
matched by the `filename*=UTF-8''` rule percent-decodes successfully; a
rule that fails to match falls through (only a matched value that fails
to decode raises a propagating `URIError`). -/
theorem c5_no_throw_amended :
    ∀ cd : String,
      (∀ cap, scanFnStar cd.data = some cap → (decodeURIComponent cap).isSome = true) →
      (extractFilenameFromContentDisposition cd).isOk = true := by
  intro cd h
  unfold extractFilenameFromContentDisposition
  by_cases h0 : cd = ""
  · rw [if_pos h0]; rfl
  · rw [if_neg h0]
    cases hs : scanFnStar cd.data with
    | some cap =>
      have hd := h cap hs
      cases hdec : decodeURIComponent cap with
      | none => rw [hdec] at hd; exact absurd hd (by simp)
      | some cs => simp [hdec, Except.isOk, Except.toBool]
    | none =>
      cases hf : scanFn cd.data with
      | some cap =>
        by_cases he : cap.isEmpty = true
        · simp [hf, he, Except.isOk, Except.toBool]
        · simp [hf, he, Except.isOk, Except.toBool]
      | none => simp [hf, Except.isOk, Except.toBool]

/-- Witness for C5 (amended): a header on which the extended rule does
not match, so the hypothesis holds vacuously and resolution returns
without throwing. -/
theorem c5_no_throw_amended_witness :
    (extractFilenameFromContentDisposition "attachment; filename=\"game.zip\"").isOk
      = true := by
  apply c5_no_throw_amended
  intro cap h
  rw [show scanFnStar ("attachment; filename=\"game.zip\"" : String).data = none
    from by rfl] at h
  exact Option.noConfusion h

/-- C8 counterexample: the claim says interior quote/apostrophe
characters of a standard `filename=` value are preserved, but the code
strips every quote and apostrophe: `attachment; filename="a'b.zip"`
resolves to `ab.zip`, not `a'b.zip`. -/
theorem c8_counterexample :
    extractFilenameFromContentDisposition "attachment; filename=\"a'b.zip\""
      = .ok (some "ab.zip")
    ∧ ("ab.zip" : String) ≠ "a'b.zip" := ⟨by rfl, by decide⟩

/-- C8 amended: a filename resolved from the standard `filename=`
parameter has every double-quote and apostrophe character removed (not
only the surrounding quotes), so the result never contains either
character. -/
theorem c8_quotes_stripped_amended :
    ∀ (cd f : String),
      scanFnStar cd.data = none →
      extractFilenameFromContentDisposition cd = .ok (some f) →
      '"' ∉ f.data ∧ apos ∉ f.data := by
  intro cd f h1 h2
  unfold extractFilenameFromContentDisposition at h2
  by_cases h0 : cd = ""
  · rw [if_pos h0] at h2; exact absurd h2 (by simp)
  · rw [if_neg h0, h1] at h2
    cases hf : scanFn cd.data with
    | none => rw [hf] at h2; exact absurd h2 (by simp)
    | some cap =>
      rw [hf] at h2
      dsimp only at h2
      by_cases he : cap.isEmpty = true
      · rw [if_pos he] at h2; exact absurd h2 (by simp)
      · rw [if_neg he] at h2
        simp only [Except.ok.injEq, Option.some.injEq] at h2
        subst h2
        constructor
        · intro hc
          rcases List.mem_filter.mp hc with ⟨_, hp⟩
          simp [apos] at hp
        · intro hc
          rcases List.mem_filter.mp hc with ⟨_, hp⟩
          simp [apos] at hp

/-- Witness for C8 (amended): the resolved `ab.zip` contains neither a
quote nor an apostrophe. -/
theorem c8_quotes_stripped_amended_witness :
    '"' ∉ ("ab.zip" : String).data ∧ apos ∉ ("ab.zip" : String).data :=
  c8_quotes_stripped_amended "attachment; filename=\"a'b.zip\"" "ab.zip"
    (by rfl) (by rfl)

/-- C10: the destination is the plain `path.join` of the output
directory and the resolved filename, used verbatim, and for a header
whose filename contains `../` the written and returned path lies
outside the output directory. -/
theorem c10_dest_path :
    (∀ (url outputDir : String) (res : Response) (fs : FS) (t0 : Nat) (f p : String),
      resolvedFilename res.contentDisposition url = .ok f →
      (downloadFileWithProgress url outputDir res fs t0).outcome = .ok p →
      p = pathJoin outputDir f)
    ∧ (downloadFileWithProgress "https://host.example/x" "/downloads"
        ⟨some "attachment; filename=../evil.bin", some "1", [⟨0, [7]⟩], true⟩ [] 0).outcome
        = .ok "/evil.bin"
    ∧ fsGet (downloadFileWithProgress "https://host.example/x" "/downloads"
        ⟨some "attachment; filename=../evil.bin", some "1", [⟨0, [7]⟩], true⟩ [] 0).fs
        "/evil.bin" = some [7]
    ∧ strStartsWith "/evil.bin" "/downloads/" = false := by
  refine ⟨?_, by rfl, by rfl, by rfl⟩
  intro url outputDir res fs t0 f p hres hout
  unfold downloadFileWithProgress at hout
  rw [hres] at hout
  dsimp only at hout
  split at hout
  · exact (Except.ok.inj hout).symm
  · split at hout
    · exact (Except.ok.inj hout).symm
    · exact absurd hout (by simp)

/-- Witness for C10: at the concrete malicious header the returned path
is exactly the join of the output directory with `../evil.bin`. -/
theorem c10_dest_path_witness :
    ("/evil.bin" : String) = pathJoin "/downloads" "../evil.bin" :=
  c10_dest_path.1 "https://host.example/x" "/downloads"
    ⟨some "attachment; filename=../evil.bin", some "1", [⟨0, [7]⟩], true⟩ [] 0
    "../evil.bin" "/evil.bin" (by rfl) (by rfl)

/-- C1: when the body stream fails partway through (after any number of
delivered chunks) on a fresh download, the call errors, no file exists
at the final output path afterwards, the temp `.download` file holds the
partial content, and the trace contains only the fetch and the throttled
progress events — in particular no rename, so the temp file is never
published under the final name. -/
theorem c1_no_publish_on_stream_failure :
    ∀ (url outputDir : String) (res : Response) (fs : FS) (t0 : Nat) (f : String),
      res.streamOk = false →
      resolvedFilename res.contentDisposition url = .ok f →
      fsExists fs (pathJoin outputDir f) = false →
      (downloadFileWithProgress url outputDir res fs t0).outcome = .error .streamError
      ∧ fsExists (downloadFileWithProgress url outputDir res fs t0).fs
          (pathJoin outputDir f) = false
      ∧ fsGet (downloadFileWithProgress url outputDir res fs t0).fs
          (pathJoin outputDir f ++ ".download") = some (bytesOf res.chunks)
      ∧ (downloadFileWithProgress url outputDir res fs t0).trace
          = Event.fetch url
            :: (streamEmits (res.contentLength.bind parseContentLength) t0
                res.chunks).map (fun e => Event.progress e.2) := by
  intro url outputDir res fs t0 f hfail hres hex
  unfold downloadFileWithProgress
  rw [hres]
  dsimp only
  rw [if_neg (by simp [hex]), if_neg (by simp [hfail])]
  refine ⟨rfl, ?_, fsGet_fsSet_self _ _ _, rfl⟩
  have hne : ¬ pathJoin outputDir f = pathJoin outputDir f ++ ".download" :=
    fun hc => append_download_ne _ hc.symm
  rw [fsExists, fsGet_fsSet_ne _ _ _ _ hne, fsGet_fsDel_ne _ _ _ hne]
  exact hex

/-- Witness for C1: a concrete interrupted transfer leaves only the
partial temp file, never the final file. -/
theorem c1_no_publish_on_stream_failure_witness :
    (downloadFileWithProgress "https://h.example/a.bin" "/d"
        ⟨none, some "3", [⟨100, [1, 2, 3]⟩], false⟩ [] 0).outcome = .error .streamError
    ∧ fsExists (downloadFileWithProgress "https://h.example/a.bin" "/d"
        ⟨none, some "3", [⟨100, [1, 2, 3]⟩], false⟩ [] 0).fs "/d/a.bin" = false
    ∧ fsGet (downloadFileWithProgress "https://h.example/a.bin" "/d"
        ⟨none, some "3", [⟨100, [1, 2, 3]⟩], false⟩ [] 0).fs "/d/a.bin.download"
        = some [1, 2, 3]
    ∧ (downloadFileWithProgress "https://h.example/a.bin" "/d"
        ⟨none, some "3", [⟨100, [1, 2, 3]⟩], false⟩ [] 0).trace
        = [Event.fetch "https://h.example/a.bin"] :=
  c1_no_publish_on_stream_failure "https://h.example/a.bin" "/d"
    ⟨none, some "3", [⟨100, [1, 2, 3]⟩], false⟩ [] 0 "a.bin"
    (by rfl) (by rfl) (by rfl)

/-- C2 counterexample: calling download twice for the same resource and
destination performs the network fetch twice, not once — the fetch
precedes the existence check, so the second (skipping) call still
fetches. -/
theorem c2_counterexample :
    (downloadFileWithProgress "https://h.example/a.bin" "/d"
        ⟨none, some "3", [⟨100, [1, 2, 3]⟩], true⟩ [] 0).outcome = .ok "/d/a.bin"
    ∧ (downloadFileWithProgress "https://h.example/a.bin" "/d"
        ⟨none, some "3", [⟨100, [1, 2, 3]⟩], true⟩
        (downloadFileWithProgress "https://h.example/a.bin" "/d"
          ⟨none, some "3", [⟨100, [1, 2, 3]⟩], true⟩ [] 0).fs 0).outcome = .ok "/d/a.bin"
    ∧ countFetch ((downloadFileWithProgress "https://h.example/a.bin" "/d"
          ⟨none, some "3", [⟨100, [1, 2, 3]⟩], true⟩ [] 0).trace
        ++ (downloadFileWithProgress "https://h.example/a.bin" "/d"
          ⟨none, some "3", [⟨100, [1, 2, 3]⟩], true⟩
          (downloadFileWithProgress "https://h.example/a.bin" "/d"
            ⟨none, some "3", [⟨100, [1, 2, 3]⟩], true⟩ [] 0).fs 0).trace) = 2
    ∧ (2 : Nat) ≠ 1 := ⟨by rfl, by rfl, by rfl, by decide⟩

/-- C2 amended: every download call performs exactly one network fetch
(so two calls fetch twice); a second call for the same resource and
destination after a successful first call detects the existing file,
destroys the response body without reading it, leaves the filesystem
unchanged, and returns the existing path without error. -/
theorem c2_idempotent_skip_amended :
    (∀ (url outputDir : String) (res : Response) (fs : FS) (t0 : Nat),
      countFetch (downloadFileWithProgress url outputDir res fs t0).trace = 1)
    ∧ ∀ (url outputDir : String) (res : Response) (fs : FS) (t0 t1 : Nat) (p : String),
      (downloadFileWithProgress url outputDir res fs t0).outcome = .ok p →
      downloadFileWithProgress url outputDir res
          (downloadFileWithProgress url outputDir res fs t0).fs t1
        = ⟨.ok p, (downloadFileWithProgress url outputDir res fs t0).fs,
            [Event.fetch url, Event.destroyBody]⟩ := by
  constructor
  · intro url outputDir res fs t0
    unfold downloadFileWithProgress
    cases hres : resolvedFilename res.contentDisposition url with
    | error e => rfl
    | ok f =>
      dsimp only
      by_cases hex : fsExists fs (pathJoin outputDir f) = true
      · rw [if_pos hex]; rfl
      · rw [if_neg hex]
        by_cases hok : res.streamOk = true
        · rw [if_pos hok]
          dsimp only
          rw [countFetch, List.countP_append]
          have h0 := countFetch_progress_map
            (streamEmits (res.contentLength.bind parseContentLength) t0 res.chunks)
          rw [countFetch] at h0
          rw [List.countP_cons, List.countP_cons, List.countP_cons, h0]
          simp
        · rw [if_neg hok]
          dsimp only
          rw [countFetch, List.countP_cons]
          have h0 := countFetch_progress_map
            (streamEmits (res.contentLength.bind parseContentLength) t0 res.chunks)
          rw [countFetch] at h0
          rw [h0]
          simp
  · intro url outputDir res fs t0 t1 p h
    cases hres : resolvedFilename res.contentDisposition url with
    | error e =>
      have h1 : (downloadFileWithProgress url outputDir res fs t0).outcome = .error e := by
        unfold downloadFileWithProgress; rw [hres]
      rw [h1] at h
      exact absurd h (by simp)
    | ok f =>
      obtain ⟨hp, hex⟩ := download_ok_exists url outputDir res fs t0 f p hres h
      rw [hp]
      exact download_skip url outputDir res _ t1 f hres hex

/-- Witness for C2 (amended): after a concrete successful first call,
the second call returns the same path with only a fetch and a body
destruction. -/
theorem c2_idempotent_skip_amended_witness :
    downloadFileWithProgress "https://h.example/a.bin" "/d"
        ⟨none, some "3", [⟨100, [1, 2, 3]⟩], true⟩
        (downloadFileWithProgress "https://h.example/a.bin" "/d"
          ⟨none, some "3", [⟨100, [1, 2, 3]⟩], true⟩ [] 0).fs 5
      = ⟨.ok "/d/a.bin",
          (downloadFileWithProgress "https://h.example/a.bin" "/d"
            ⟨none, some "3", [⟨100, [1, 2, 3]⟩], true⟩ [] 0).fs,
          [Event.fetch "https://h.example/a.bin", Event.destroyBody]⟩ :=
  c2_idempotent_skip_amended.2 "https://h.example/a.bin" "/d"
    ⟨none, some "3", [⟨100, [1, 2, 3]⟩], true⟩ [] 0 5 "/d/a.bin" (by rfl)

/-- C6 counterexample: for a response with a known `Content-Length` of
`"0"` (an empty file), the final progress callback after the rename has
`percent` absent, not 100, because the code tests JS truthiness of the
total (`0` is falsy) rather than whether the length was known. -/
theorem c6_counterexample :
    (⟨some "attachment; filename=empty.bin", some "0", [], true⟩ : Response).contentLength
      = some "0"
    ∧ (downloadFileWithProgress "https://h.example/e" "/d"
        ⟨some "attachment; filename=empty.bin", some "0", [], true⟩ [] 0).trace
      = [Event.fetch "https://h.example/e",
         Event.rename "/d/empty.bin.download" "/d/empty.bin",
         Event.progress ⟨0, some 0, none, none⟩]
    ∧ (none : Option ℚ) ≠ some 100 := ⟨by rfl, by rfl, by decide⟩

/-- C6 amended: on a successful non-skipped download exactly one final
progress callback is emitted after the rename, with `rateBps` absent and
`percent = 100` exactly when the `Content-Length` total is truthy (known
and non-zero; a zero or unparsable length is treated as unknown); for a
skipped download the progress callback is never invoked at all. -/
theorem c6_final_progress_amended :
    ∀ (url outputDir : String) (res : Response) (fs : FS) (t0 : Nat) (f : String),
      resolvedFilename res.contentDisposition url = .ok f →
      (fsExists fs (pathJoin outputDir f) = false → res.streamOk = true →
        (downloadFileWithProgress url outputDir res fs t0).trace
          = (Event.fetch url
              :: (streamEmits (res.contentLength.bind parseContentLength) t0
                  res.chunks).map (fun e => Event.progress e.2))
            ++ [Event.rename (pathJoin outputDir f ++ ".download") (pathJoin outputDir f),
                Event.progress
                  ⟨(bytesOf res.chunks).length, res.contentLength.bind parseContentLength,
                    if tbTruthy (res.contentLength.bind parseContentLength) then some 100
                    else none, none⟩])
      ∧ (fsExists fs (pathJoin outputDir f) = true →
        (downloadFileWithProgress url outputDir res fs t0).trace
          = [Event.fetch url, Event.destroyBody]) := by
  intro url outputDir res fs t0 f hres
  constructor
  · intro hex hok
    unfold downloadFileWithProgress
    rw [hres]
    dsimp only
    rw [if_neg (by simp [hex]), if_pos hok]
  · intro hex
    rw [download_skip url outputDir res fs t0 f hres hex]

/-- Witness for C6 (amended): a concrete successful download emits
exactly the fetch, the rename and one final callback with
`percent = 100` and no rate. -/
theorem c6_final_progress_amended_witness :
    (downloadFileWithProgress "https://h.example/a.bin" "/d"
        ⟨none, some "3", [⟨100, [1, 2, 3]⟩], true⟩ [] 0).trace
      = [Event.fetch "https://h.example/a.bin",
         Event.rename "/d/a.bin.download" "/d/a.bin",
         Event.progress ⟨3, some 3, some 100, none⟩] :=
  (c6_final_progress_amended "https://h.example/a.bin" "/d"
    ⟨none, some "3", [⟨100, [1, 2, 3]⟩], true⟩ [] 0 "a.bin" (by rfl)).1
    (by rfl) (by rfl)

theorem timesMono_anti (cs : List Chunk) (t t' : Nat) (h : t ≤ t')
    (hm : timesMono t' cs = true) : timesMono t cs = true := by
  cases cs with
  | nil => rfl
  | cons c cs' =>
    rw [timesMono, Bool.and_eq_true, decide_eq_true_eq] at hm ⊢
    exact ⟨le_trans h hm.1, hm.2⟩

theorem streamEmitsAux_ok (tb : Option Nat) :
    ∀ (chunks : List Chunk) (d le lb : Nat), lb ≤ d →
      timesMono le chunks = true →
      emissionsOk le lb (streamEmitsAux tb ⟨d, le, lb⟩ chunks) = true := by
  intro chunks
  induction chunks with
  | nil => intro d le lb _ _; rfl
  | cons c cs ih =>
    intro d le lb hlb hm
    rw [timesMono, Bool.and_eq_true, decide_eq_true_eq] at hm
    obtain ⟨hle, hm'⟩ := hm
    rw [streamEmitsAux]
    by_cases hemit : le + 250 ≤ c.time
    · have hstep : stepChunk tb ⟨d, le, lb⟩ c
          = (⟨d + c.data.length, c.time, d + c.data.length⟩,
             some (c.time,
               ⟨d + c.data.length, tb,
                if tbTruthy tb then
                  some (((d + c.data.length : Nat) : ℚ) / ((tb.getD 0 : Nat) : ℚ) * 100)
                else none,
                some ((((d + c.data.length : Nat) : ℚ) - (lb : ℚ)) * 1000 /
                  ((c.time : ℚ) - (le : ℚ)))⟩)) := by
        unfold stepChunk
        dsimp only
        rw [if_pos hemit]
      rw [hstep]
      dsimp only
      rw [emissionsOk]
      simp only [Bool.and_eq_true, decide_eq_true_eq]
      refine ⟨⟨⟨hemit, le_trans hlb (Nat.le_add_right _ _)⟩, by trivial⟩, ?_⟩
      exact ih (d + c.data.length) c.time (d + c.data.length) (le_refl _) hm'
    · have hstep : stepChunk tb ⟨d, le, lb⟩ c = (⟨d + c.data.length, le, lb⟩, none) := by
        unfold stepChunk
        dsimp only
        rw [if_neg hemit]
      rw [hstep]
      dsimp only
      exact ih (d + c.data.length) le lb (le_trans hlb (Nat.le_add_right _ _))
        (timesMono_anti cs le c.time hle hm')

/-- C7: over any monotone wall clock, the throttled mid-transfer
samples of the downloader satisfy, chained from the stream start time
and zero bytes: each emission comes at least 0.25 s after the previous
one, its `rateBps` equals the bytes received since the previous
emission divided by the seconds elapsed since it (instantaneous rate),
and `downloadedBytes` is non-decreasing across successive emissions. -/
theorem c7_throttle_and_rate :
    ∀ (totalBytes : Option Nat) (startTime : Nat) (chunks : List Chunk),
      timesMono startTime chunks = true →
      emissionsOk startTime 0 (streamEmits totalBytes startTime chunks) = true :=
  fun tb t0 chunks h => streamEmitsAux_ok tb chunks 0 t0 0 (Nat.le_refl 0) h

/-- Witness for C7: a concrete two-chunk stream with monotone times
whose two emissions satisfy the throttle/rate/monotonicity predicate. -/
theorem c7_throttle_and_rate_witness :
    timesMono 0 [⟨300, [5, 5, 5]⟩, ⟨600, [7]⟩] = true
    ∧ emissionsOk 0 0 (streamEmits (some 1000) 0 [⟨300, [5, 5, 5]⟩, ⟨600, [7]⟩]) = true :=
  ⟨by decide, c7_throttle_and_rate (some 1000) 0 [⟨300, [5, 5, 5]⟩, ⟨600, [7]⟩] (by decide)⟩

theorem c4_items_eq (url hrefPrefix : String) (anchors : List AnchorEl) :
    (anchors.filter (anchorKeep hrefPrefix)).filterMap (toLinkItem url)
      = ((anchors.filterMap (fun a => a.href.map (fun h => (h, a.text)))).filter
          (fun hw => !(hw.1 = "") && strStartsWith hw.1 hrefPrefix)).map
        (fun hw => (⟨resolveUrl url hw.1, trimText hw.2⟩ : LinkItem)) := by
  induction anchors with
  | nil => rfl
  | cons a t ih =>
    cases ha : a.href with
    | none =>
      simp only [List.filter_cons, List.filterMap_cons, anchorKeep, ha]
      exact ih
    | some h =>
      by_cases h0 : h = ""
      · simp [List.filter_cons, List.filterMap_cons, anchorKeep, toLinkItem, ha, h0, ih]
      · by_cases hsw : strStartsWith h hrefPrefix = true
        · simp [List.filter_cons, List.filterMap_cons, anchorKeep, toLinkItem, ha, h0,
            hsw, ih]
        · simp [List.filter_cons, List.filterMap_cons, anchorKeep, toLinkItem, ha, h0,
            hsw, ih]

/-- C4 counterexample: for an anchor whose `href` attribute is present
but empty and the empty prefix, the specified result contains the
anchor (an empty href does start with the empty prefix) but the code
excludes it — JS truthiness of `attribs.href` rejects the empty
string. -/
theorem c4_counterexample :
    getDownloadLinks "https://e.test/p/" "" [⟨some "", "t"⟩] = []
    ∧ discoverSpec "https://e.test/p/" "" [⟨some "", "t"⟩]
      = [⟨"https://e.test/p/", "t"⟩]
    ∧ getDownloadLinks "https://e.test/p/" "" [⟨some "", "t"⟩]
      ≠ discoverSpec "https://e.test/p/" "" [⟨some "", "t"⟩] :=
  ⟨by rfl, by rfl, by decide⟩

/-- C4 amended: `getDownloadLinks` returns exactly the anchors whose
raw href is present, non-empty and starts with the given prefix,
resolved against the page URL, deduplicated by resolved href with the
first occurrence (and its text) winning in insertion order; the
end-to-end scenario returns exactly the two items for `/a` and `/b` in
that order; and when the page URL parses, every href in the result is
an absolute http(s) URL. -/
theorem c4_discover_amended :
    (∀ (url hrefPrefix : String) (anchors : List AnchorEl),
      getDownloadLinks url hrefPrefix anchors = discoverSpecNonempty url hrefPrefix anchors)
    ∧ getDownloadLinks "https://example.test/repack/" "https://fuckingfast.co"
        [⟨some "https://fuckingfast.co/a", "Part 1"⟩,
         ⟨some "https://fuckingfast.co/a", "Part 1 again"⟩,
         ⟨some "https://fuckingfast.co/b", "Part 2"⟩,
         ⟨some "/local/page", "Local"⟩]
      = [⟨"https://fuckingfast.co/a", "Part 1"⟩, ⟨"https://fuckingfast.co/b", "Part 2"⟩]
    ∧ ∀ (url hrefPrefix : String) (anchors : List AnchorEl) (it : LinkItem),
        (urlSplit url).isSome = true →
        it ∈ getDownloadLinks url hrefPrefix anchors →
        isAbsoluteHttpUrl it.href = true := by
  refine ⟨?_, by rfl, ?_⟩
  · intro url hrefPrefix anchors
    unfold getDownloadLinks discoverSpecNonempty
    rw [c4_items_eq]
  · intro url hrefPrefix anchors it hbase hmem
    have hmem' := mem_of_mem_dedup _ _ hmem
    rcases List.mem_filterMap.mp hmem' with ⟨a, _, hai⟩
    unfold toLinkItem at hai
    cases ha : a.href with
    | none => rw [ha] at hai; exact absurd hai (by simp)
    | some h =>
      rw [ha] at hai
      dsimp only at hai
      by_cases h0 : h = ""
      · rw [if_pos h0] at hai; exact absurd hai (by simp)
      · rw [if_neg h0] at hai
        rw [← Option.some.inj hai]
        exact resolveUrl_abs url h hbase

/-- Witness for C4 (amended): the first scenario item's href is an
absolute https URL. -/
theorem c4_discover_amended_witness :
    isAbsoluteHttpUrl "https://fuckingfast.co/a" = true :=
  c4_discover_amended.2.2 "https://example.test/repack/" "https://fuckingfast.co"
    [⟨some "https://fuckingfast.co/a", "Part 1"⟩,
     ⟨some "https://fuckingfast.co/a", "Part 1 again"⟩,
     ⟨some "https://fuckingfast.co/b", "Part 2"⟩,
     ⟨some "/local/page", "Local"⟩]
    ⟨"https://fuckingfast.co/a", "Part 1"⟩ (by rfl) (by decide)

theorem runItems_spec (items : List ItemRun) :
    ∀ a b : Nat, items.foldl stepItem (a, b)
      = (a + items.countP (fun it => !itemFails it), b + items.countP itemFails) := by
  induction items with
  | nil => intro a b; simp
  | cons it t ih =>
    intro a b
    cases it with
    | mk nested dl =>
      rw [List.foldl_cons, List.countP_cons, List.countP_cons]
      cases nested with
      | none =>
        rw [show stepItem (a, b) ⟨none, dl⟩ = (a, b + 1) from rfl, ih]
        simp [itemFails, Prod.ext_iff]
        omega
      | some inner =>
        cases inner with
        | none =>
          rw [show stepItem (a, b) ⟨some none, dl⟩ = (a, b + 1) from rfl, ih]
          simp [itemFails, Prod.ext_iff]
          omega
        | some u =>
          cases dl with
          | true =>
            rw [show stepItem (a, b) ⟨some (some u), true⟩ = (a + 1, b) from rfl, ih]
            simp [itemFails, Prod.ext_iff]
            omega
          | false =>
            rw [show stepItem (a, b) ⟨some (some u), false⟩ = (a, b + 1) from rfl, ih]
            simp [itemFails, Prod.ext_iff]
            omega

theorem countP_not_add (items : List ItemRun) :
    items.countP (fun it => !itemFails it) + items.countP itemFails = items.length := by
  induction items with
  | nil => rfl
  | cons it t ih =>
    rw [List.countP_cons, List.countP_cons, List.length_cons]
    cases hf : itemFails it <;> simp [hf] <;> omega

/-- C9: in the CLI loop over the selected links, each item whose nested
resolution fails (fetch error or no match) or whose download fails
counts as exactly one failure and processing continues — successes and
failures partition the selected items; a failure fetching the initial
page list is fatal with exit status 1 and zero items processed; and
given the initial fetch succeeded, the exit status is non-zero exactly
when the failure count is non-zero. -/
theorem c9_cli_failure_policy :
    ∀ items : List ItemRun,
      runItems items = (items.countP (fun it => !itemFails it), items.countP itemFails)
      ∧ (runItems items).1 + (runItems items).2 = items.length
      ∧ downloadGame none = (1, 0)
      ∧ (downloadGame (some items)).2 = items.length
      ∧ ((downloadGame (some items)).1 ≠ 0 ↔ items.countP itemFails ≠ 0) := by
  intro items
  have h1 : runItems items
      = (items.countP (fun it => !itemFails it), items.countP itemFails) := by
    rw [runItems, runItems_spec]
    simp
  refine ⟨h1, ?_, rfl, rfl, ?_⟩
  · rw [h1]
    exact countP_not_add items
  · rw [downloadGame]
    dsimp only
    rw [h1]
    dsimp only
    by_cases hf : 0 < items.countP itemFails
    · rw [if_pos hf]
      constructor
      · intro _
        omega
      · intro _
        omega
    · rw [if_neg hf]
      constructor
      · intro h0
        exact absurd rfl h0
      · intro hne
        omega

/-- Witness for C9: the concrete four-item run with three failure modes
(nested fetch error, nested not-found, download error) and one success
counts one success and three failures. -/
theorem c9_cli_failure_policy_witness :
    runItems [⟨none, true⟩, ⟨some none, true⟩, ⟨some (some "u"), false⟩,
        ⟨some (some "u"), true⟩] = (1, 3) :=
  ((c9_cli_failure_policy
    [⟨none, true⟩, ⟨some none, true⟩, ⟨some (some "u"), false⟩,
      ⟨some (some "u"), true⟩]).1).trans (by decide)

end FG
